import Mathlib

/-!
Verification of the normalization and order-lifecycle reconciliation layer of the
poloniex exchange integration (src/js/poloniex.js, with the two older revisions in
src/unnamed/part_000).  JavaScript numbers are idealized as exact rationals, JS
`undefined` as `Option.none` (a NaN produced by arithmetic on `undefined` is also
modelled as `none`), and JS objects as association lists in key-insertion order.
-/

namespace Polo

/-! ## Generic association-list operations mirroring JS object semantics

`setKey` mirrors `obj[k] = v`: an existing key keeps its position and gets the new
value, a new key is appended.  `lookupKey` mirrors `obj[k]` / the `k in obj` test. -/

def lookupKey {β : Type} : List (String × β) → String → Option β
  | [], _ => none
  | (k, v) :: rest, id => if k = id then some v else lookupKey rest id

def setKey {β : Type} : List (String × β) → String → β → List (String × β)
  | [], id, o => [(id, o)]
  | (k, v) :: rest, id, o => if k = id then (id, o) :: rest else (k, v) :: setKey rest id o

def keysOf {β : Type} (l : List (String × β)) : List String := l.map Prod.fst

/-! ## JS numeric helpers on `Option Rat` (`undefined`/NaN propagate as `none`) -/

def jsSub (a b : Option Rat) : Option Rat :=
  match a, b with
  | some x, some y => some (x - y)
  | _, _ => none

def jsMul (a b : Option Rat) : Option Rat :=
  match a, b with
  | some x, some y => some (x * y)
  | _, _ => none

/-- Modelled from the spec: the base `Exchange.sum` helper is not under src/; per its
use in §4.4 it adds its defined arguments and skips `undefined` ones, returning
`undefined` only when every argument is `undefined`. -/
def jsSum (a b : Option Rat) : Option Rat :=
  match a, b with
  | some x, some y => some (x + y)
  | some x, none => some x
  | none, some y => some y
  | none, none => none

/-- Modelled from the spec: the base precision helpers (`priceToPrecision`,
`costToPrecision`, `feeToPrecision`) are not under src/; per §4.2 they render a
number at the fixed per-exchange precision of 8 decimal places (poloniex declares
`precision: {amount: 8, price: 8}`), i.e. they round at the 8th decimal. -/
def toPrecision8 (x : Rat) : Rat := (round (x * 100000000) : Rat) / 100000000

/-! ## Splitting an exchange-native pair id on its underscore delimiter -/

def splitAccum : List Char → List Char → List (List Char)
  | [], acc => [acc.reverse]
  | c :: rest, acc => if c = '_' then acc.reverse :: splitAccum rest [] else splitAccum rest (c :: acc)

def splitPair (s : String) : List String := (splitAccum s.data []).map String.mk

/-! ## Substring search, as JS `String.prototype.indexOf >= 0` -/

def charsStart : List Char → List Char → Bool
  | [], _ => true
  | _ :: _, [] => false
  | a :: as, b :: bs => a = b && charsStart as bs

def charsOccur (needle : List Char) : List Char → Bool
  | [] => needle.isEmpty
  | c :: rest => charsStart needle (c :: rest) || charsOccur needle rest

def strOccurs (needle hay : String) : Bool := charsOccur needle.data hay.data

/-! ## Error taxonomy (src/js/base/errors, as imported by poloniex.js) -/

inductive ErrKind where
  | AuthenticationError
  | PermissionDenied
  | InvalidNonce
  | InsufficientFunds
  | InvalidOrder
  | OrderNotFound
  | AccountSuspended
  | CancelPending
  | RequestTimeout
  | ExchangeNotAvailable
  | DDoSProtection
  | ExchangeError
deriving DecidableEq, Repr

/-- The `exceptions.exact` table of `describe` (src/js/poloniex.js lines 168-178),
in source order. -/
def exceptionsExact : List (String × ErrKind) :=
  [ ("You may only place orders that reduce your position.", ErrKind.InvalidOrder),
    ("Invalid order number, or you are not the person who placed the order.", ErrKind.OrderNotFound),
    ("Permission denied", ErrKind.PermissionDenied),
    ("Connection timed out. Please try again.", ErrKind.RequestTimeout),
    ("Internal error. Please try again.", ErrKind.ExchangeNotAvailable),
    ("Order not found, or you are not the person who placed it.", ErrKind.OrderNotFound),
    ("Invalid API key/secret pair.", ErrKind.AuthenticationError),
    ("Please do not make more than 8 API calls per second.", ErrKind.DDoSProtection),
    ("Rate must be greater than zero.", ErrKind.InvalidOrder) ]

/-- The `exceptions.broad` table of `describe` (src/js/poloniex.js lines 179-187),
in source order; the order is the tie-break for the broad match. -/
def exceptionsBroad : List (String × ErrKind) :=
  [ ("Total must be at least", ErrKind.InvalidOrder),
    ("This account is frozen.", ErrKind.AccountSuspended),
    ("Not enough", ErrKind.InsufficientFunds),
    ("Nonce must be greater", ErrKind.InvalidNonce),
    ("You have already called cancelOrder or moveOrder on this order.", ErrKind.CancelPending),
    ("Amount must be at least", ErrKind.InvalidOrder),
    ("is either completed or does not exist", ErrKind.InvalidOrder) ]

/-- Modelled from the spec: the base `Exchange.findBroadlyMatchedKey` is not under
src/; per §4.1 it scans the per-exchange table of substrings in table order and the
first substring found in the message wins. -/
def findBroadlyMatchedKey (broad : List (String × ErrKind)) (message : String) : Option String :=
  match broad with
  | [] => none
  | (key, _) :: rest =>
    if strOccurs key message then some key else findBroadlyMatchedKey rest message

/-- An error raised by `handleErrors`: the classified kind together with the raw
message it carries. -/
structure Raised where
  kind : ErrKind
  message : String
deriving DecidableEq, Repr

/-- Function `handleErrors` of src/js/poloniex.js lines 1420-1437.  The input is `none` when
the response is `undefined`, `some none` when the parsed body has no `error` key and
`some (some m)` when the body carries the error message `m`.  The result is the
raised error, or `none` when the function returns without raising. -/
def handleErrors (response : Option (Option String)) : Option Raised :=
  match response with
  | none => none
  | some none => none
  | some (some message) =>
    match lookupKey exceptionsExact message with
    | some kind => some ⟨kind, message⟩
    | none =>
      match findBroadlyMatchedKey exceptionsBroad message with
      | some broadKey =>
        match lookupKey exceptionsBroad broadKey with
        | some kind => some ⟨kind, message⟩
        | none => some ⟨ErrKind.ExchangeError, message⟩
      | none => some ⟨ErrKind.ExchangeError, message⟩

/-! ## Canonical Order entity and the order cache

The cache `this.orders` is a JS object keyed by order id; it is modelled as an
association list in insertion order.  Only the fields touched by the reconciler and
the lifecycle claims are carried; `parseOrder` emits every one of these keys, so a
JS `extend (cached, parsed)` replaces each modelled field with the parsed one. -/

structure Order where
  id : String
  timestamp : Option Int
  status : String
  symbol : Option String
  type : Option String
  side : Option String
  price : Option Rat
  amount : Option Rat
  filled : Option Rat
  remaining : Option Rat
  cost : Option Rat
  fee : Option Rat
deriving DecidableEq, Repr

/-- Function `parseOrderStatus` of src/js/poloniex.js lines 778-784: the two table entries,
then pass-through. -/
def parseOrderStatus (status : String) : String :=
  if status = "Open" then "open"
  else if status = "Partially filled" then "open"
  else status

/-- A record of the exchange open-orders listing (`returnOpenOrders`): the raw
fields read by `parseOpenOrders`/`parseOrder`.  `date` stands for the already
`parse8601`-converted timestamp of the `date` string field; `otype` is the wire
`type` field holding the side. -/
structure RawOpenOrder where
  orderNumber : String
  date : Option Int
  otype : String
  rate : Option Rat
  startingAmount : Option Rat
  amount : Option Rat
deriving DecidableEq, Repr

/-- Function `parseOpenOrders` (src/js/poloniex.js lines 865-877) composed with `parseOrder`
(lines 786-863) on one raw open-order record: the record is extended with
`status: open`, `type: limit`, `side: order.type`, `price: order.rate` and then
parsed.  The open-orders wire format has no `resultingTrades` and no `currencyPair`;
the market symbol comes from the call context. -/
def parseOpenOrder (symbol : Option String) (raw : RawOpenOrder) : Order :=
  let price := raw.rate
  let remaining := raw.amount
  let amount := match raw.startingAmount with
    | some a => some a
    | none => remaining
  let filled := jsSub amount remaining
  let cost : Rat := match filled, price with
    | some f, some p => f * p
    | _, _ => 0
  let side := raw.otype
  let type : Option String := if ("limit" : String) = side then none else some "limit"
  { id := raw.orderNumber
    timestamp := raw.date
    status := parseOrderStatus "open"
    symbol := symbol
    type := type
    side := some side
    price := price.map toPrecision8
    amount := amount
    filled := filled
    remaining := remaining
    cost := some (toPrecision8 cost)
    fee := some (toPrecision8 0) }

/-- The closing branch of the `fetchOrders` reconciler (src/js/poloniex.js lines
913-927): the cached open order absent from the fresh listing is extended with
`status: closed`, `cost: undefined`, `filled: order.amount`, `remaining: 0`, and
then `cost` is recomputed as `filled * price` when `filled` is defined. -/
def closeOrder (o : Order) : Order :=
  let o2 : Order := { o with status := "closed", cost := none, filled := o.amount, remaining := some 0 }
  if o2.cost = none then
    if o2.filled ≠ none then { o2 with cost := jsMul o2.filled o2.price } else o2
  else o2

/-- The upsert loop of `fetchOrders` (lines 902-904): each fresh order overwrites
the cache entry with its id.  The same fold over an empty accumulator also models
`this.indexBy (openOrders, id)` (line 905), where a later element with the same id
overwrites an earlier one. -/
def setAll (orders : List (String × Order)) (fresh : List Order) : List (String × Order) :=
  fresh.foldl (fun acc o => setKey acc o.id o) orders

/-- One step of the reconcile loop of `fetchOrders` (lines 908-928) on a cache
entry.  When the id is in the fresh index, `extend (cached, fresh)` replaces every
modelled field, i.e. yields the fresh order; otherwise an `open` entry is closed and
any other status is left untouched. -/
def reconcileEntry (idx : List (String × Order)) (e : String × Order) : String × Order :=
  match lookupKey idx e.1 with
  | some fresh => (e.1, fresh)
  | none => if e.2.status = "open" then (e.1, closeOrder e.2) else e

/-- The full cache transformation of `fetchOrders` (src/js/poloniex.js lines
902-928) on an already-parsed open-orders listing. -/
def fetchOrdersCache (orders : List (String × Order)) (fresh : List Order) :
    List (String × Order) :=
  (setAll orders fresh).map (reconcileEntry (setAll [] fresh))

/-- Cache effect of `fetchOrders` from the raw open-orders response: each raw record is parsed with
status forced to `open`, then the cache is reconciled. -/
def fetchOrdersCacheRaw (orders : List (String × Order)) (symbol : Option String)
    (response : List RawOpenOrder) : List (String × Order) :=
  fetchOrdersCache orders (response.map (parseOpenOrder symbol))

/-! ## cancelOrder (src/js/poloniex.js lines 1121-1150) -/

/-- The JS update `this.orders[id].status = st` guarded by `if (id in this.orders)`. -/
def setStatus : List (String × Order) → String → String → List (String × Order)
  | [], _, _ => []
  | (k, v) :: rest, id, st =>
    if k = id then (k, { v with status := st }) :: rest else (k, v) :: setStatus rest id st

/-- Function `cancelOrder`: `outcome` is `none` when the exchange call succeeds and
`some e` when the transport classified and raised `e`.  On `CancelPending` the
cached order is marked `canceled` before the error is re-raised; on success the
cached order is marked `canceled` as well.  The second component is the error
propagated to the caller. -/
def cancelOrder (orders : List (String × Order)) (id : String) (outcome : Option ErrKind) :
    List (String × Order) × Option ErrKind :=
  match outcome with
  | some e =>
    (if e = ErrKind.CancelPending then setStatus orders id "canceled" else orders, some e)
  | none => (setStatus orders id "canceled", none)

/-! ## createOrder (src/js/poloniex.js lines 1059-1084) -/

/-- The exchange response to a buy/sell submission: the fields read by
`createOrder`/`parseOrder` in this path (`resultingTrades` is not consulted because
`filled` is computed from `startingAmount`/`amount` first). -/
structure CreateResponse where
  orderNumber : String
deriving DecidableEq, Repr

/-- Function `createOrder`: a `market` type is silently rewritten to `limit` before the
request is built; the body contains no throw, so the result is always `Except.ok`.
The literal `{timestamp, status: open, type, side, price, amount}` extended with the
response is parsed by `parseOrder` and upserted into the cache under the order
number of the response. -/
def createOrder (orders : List (String × Order)) (marketSymbol : String) (type side : String)
    (amount : Rat) (price : Option Rat) (now : Int) (resp : CreateResponse) :
    Except String (List (String × Order) × Order) :=
  let t := if type = "market" then "limit" else type
  let remaining := some amount
  let amt := remaining
  let filled := jsSub amt remaining
  let cost : Rat := match filled, price with
    | some f, some p => f * p
    | _, _ => 0
  let typeField : Option String := if t = side then none else some t
  let order : Order :=
    { id := resp.orderNumber
      timestamp := some now
      status := parseOrderStatus "open"
      symbol := some marketSymbol
      type := typeField
      side := some side
      price := price.map toPrecision8
      amount := amt
      filled := filled
      remaining := remaining
      cost := some (toPrecision8 cost)
      fee := some (toPrecision8 0) }
  Except.ok (setKey orders order.id order, order)

/-! ## Markets and the commonCurrencies remapping -/

/-- The fields of a loaded Market used by the normalizers. -/
structure Market where
  id : String
  symbol : String
  base : String
  quote : String
deriving DecidableEq, Repr

/-- The `commonCurrencies` table of `describe` (src/js/poloniex.js lines 138-154). -/
def commonCurrencies : List (String × String) :=
  [ ("AIR", "AirCoin"), ("APH", "AphroditeCoin"), ("BCC", "BTCtalkcoin"),
    ("BDG", "Badgercoin"), ("BTM", "Bitmark"), ("CON", "Coino"),
    ("GOLD", "GoldEagles"), ("GPUC", "GPU"), ("HOT", "Hotcoin"),
    ("ITC", "Information Coin"), ("PLX", "ParallaxCoin"), ("KEY", "KEYCoin"),
    ("STR", "XLM"), ("SOC", "SOCC"), ("XAP", "API Coin") ]

/-- Modelled from the spec: the base `Exchange.commonCurrencyCode` is not under
src/; per §4.2/§6 it translates a currency id through the per-exchange
`commonCurrencies` table and returns the id unchanged when it is not in the table. -/
def commonCurrencyCode (id : String) : String := (lookupKey commonCurrencies id).getD id

/-- The fallback symbol construction used by `fetchTickers` (lines 603-606),
`fetchOrderBooks` (lines 539-542) and `fetchMyTrades` (lines 761-764): the native id
is split on its underscore into `[quoteId, baseId]` and the symbol is
`commonCurrencyCode baseId / commonCurrencyCode quoteId`.  An id without a
delimiter leaves `baseId` undefined. -/
def fallbackSymbolCcc (id : String) : Option String :=
  let parts := splitPair id
  match parts.get? 0, parts.get? 1 with
  | some quoteId, some baseId => some (commonCurrencyCode baseId ++ "/" ++ commonCurrencyCode quoteId)
  | _, _ => none

/-- The fallback symbol construction inside `parseTrade` (src/js/poloniex.js lines
678-681 and src/unnamed/part_000 lines 679-682): the raw split parts are
concatenated directly, without the commonCurrencies remapping. -/
def fallbackSymbolRaw (id : String) : Option String :=
  let parts := splitPair id
  match parts.get? 0, parts.get? 1 with
  | some quote, some base => some (base ++ "/" ++ quote)
  | _, _ => none

/-- The per-id symbol resolution of the `fetchTickers` loop (src/js/poloniex.js
lines 596-608): reverse lookup in `markets_by_id` first, then the remapped split
fallback. -/
def fetchTickersSymbol (marketsById : List (String × Market)) (id : String) : Option String :=
  match lookupKey marketsById id with
  | some m => some m.symbol
  | none => fallbackSymbolCcc id

/-- The per-id symbol resolution of the `fetchOrderBooks` loop (src/js/poloniex.js
lines 533-543), identical in shape to the `fetchTickers` one. -/
def fetchOrderBooksSymbol (marketsById : List (String × Market)) (id : String) : Option String :=
  match lookupKey marketsById id with
  | some m => some m.symbol
  | none => fallbackSymbolCcc id

/-- The per-id symbol resolution of the `fetchMyTrades` all-markets loop
(src/js/poloniex.js lines 753-769), identical in shape to the `fetchTickers` one. -/
def fetchMyTradesSymbol (marketsById : List (String × Market)) (id : String) : Option String :=
  match lookupKey marketsById id with
  | some m => some m.symbol
  | none => fallbackSymbolCcc id

/-! ## parseTrade (src/unnamed/part_000 lines 667-736)

The richer of the two `parseTrade` revisions: it records the fee currency and the
fee-adjusted `filled`/`cost` next to the raw `amount`/`total`.  The plain revision
in src/js/poloniex.js lines 666-712 shares the same symbol-resolution prefix. -/

structure RawTrade where
  globalTradeID : Option String
  orderNumber : Option String
  date : Option Int
  currencyPair : Option String
  otype : Option String
  rate : Option Rat
  total : Option Rat
  amount : Option Rat
  fee : Option Rat
deriving DecidableEq, Repr

structure TradeFee where
  rate : Option Rat
  cost : Option Rat
  amount : Option Rat
  currency : Option String
deriving DecidableEq, Repr

structure Trade where
  timestamp : Option Int
  symbol : Option String
  id : Option String
  order : Option String
  side : Option String
  price : Option Rat
  amount : Option Rat
  cost : Option Rat
  total : Option Rat
  filled : Option Rat
  fee : Option TradeFee
deriving DecidableEq, Repr

/-- The symbol/base/quote resolution shared by both `parseTrade` revisions: a passed
market wins; otherwise a `currencyPair` field is looked up in `markets_by_id`, and
on a miss the raw split parts build the symbol (no remapping).  Returns the
resolved (symbol, base, quote). -/
def parseTradeSymbol (marketsById : List (String × Market)) (market0 : Option Market)
    (currencyPair : Option String) : Option String × Option String × Option String :=
  match market0 with
  | some m => (some m.symbol, some m.base, some m.quote)
  | none =>
    match currencyPair with
    | none => (none, none, none)
    | some cp =>
      match lookupKey marketsById cp with
      | some m => (some m.symbol, some m.base, some m.quote)
      | none =>
        let parts := splitPair cp
        match parts.get? 0, parts.get? 1 with
        | some quote, some base => (some (base ++ "/" ++ quote), some base, some quote)
        | q, _ => (none, none, q)

/-- Function `parseTrade` of src/unnamed/part_000 lines 667-736. -/
def parseTrade (marketsById : List (String × Market)) (market0 : Option Market)
    (t : RawTrade) : Trade :=
  let sbq := parseTradeSymbol marketsById market0 t.currencyPair
  let symbol := sbq.1
  let base := sbq.2.1
  let quote := sbq.2.2
  let side := t.otype
  let price := t.rate
  let total := t.total
  let amount := t.amount
  let st :=
    match t.fee with
    | none => (none, amount, total)
    | some rate =>
      if side = some "buy" then
        let feeAmount := (jsMul amount (some rate)).map toPrecision8
        let filled := jsSub amount feeAmount
        (some { rate := some rate, cost := some 0, amount := feeAmount, currency := base : TradeFee },
         filled, total)
      else
        match total with
        | some tv =>
          let feeCost := toPrecision8 (tv * rate)
          (some { rate := some rate, cost := some feeCost, amount := some 0, currency := quote : TradeFee },
           amount, some (tv - feeCost))
        | none =>
          (some { rate := some rate, cost := some 0, amount := some 0, currency := quote : TradeFee },
           amount, total)
  { timestamp := t.date
    symbol := symbol
    id := t.globalTradeID
    order := t.orderNumber
    side := side
    price := price
    amount := amount
    cost := st.2.2
    total := total
    filled := st.2.1
    fee := st.1 }

/-! ## fetchBalance (src/js/poloniex.js lines 284-305) -/

/-- One entry of the `returnCompleteBalances` response, after `safeFloat`: `none`
models an absent or unparseable field. -/
structure RawBalance where
  available : Option Rat
  onOrders : Option Rat
deriving DecidableEq, Repr

structure Account where
  free : Option Rat
  used : Option Rat
  total : Option Rat
deriving DecidableEq, Repr

/-- The account construction in the `fetchBalance` loop (lines 296-301): `free` and
`used` from the source fields, `total` initialized to `0.0` and immediately
replaced by `this.sum (free, used)`. -/
def mkAccount (b : RawBalance) : Account :=
  let account : Account := { free := b.available, used := b.onOrders, total := some 0 }
  { account with total := jsSum account.free account.used }

/-- The `fetchBalance` result object, before the base `parseBalance` indexing. -/
def fetchBalance (response : List (String × RawBalance)) : List (String × Account) :=
  response.foldl (fun result e => setKey result (commonCurrencyCode e.1) (mkAccount e.2)) []

/-! ## fetchWalletBalance (src/js/poloniex.js lines 307-355) -/

inductive Wallet where
  | exchange
  | margin
  | lending
deriving DecidableEq, Repr

structure WRec where
  available : Rat
  on_orders : Rat
  total : Rat
deriving DecidableEq, Repr

/-- Per-asset record over the three wallet types, as created by `initSymbol`
(lines 307-314). -/
structure WBal where
  exchange : WRec
  margin : WRec
  lending : WRec
deriving DecidableEq, Repr

def zeroWRec : WRec := { available := 0, on_orders := 0, total := 0 }

def zeroWBal : WBal := { exchange := zeroWRec, margin := zeroWRec, lending := zeroWRec }

def WBal.get (b : WBal) : Wallet → WRec
  | Wallet.exchange => b.exchange
  | Wallet.margin => b.margin
  | Wallet.lending => b.lending

def WBal.set (b : WBal) : Wallet → WRec → WBal
  | Wallet.exchange, r => { b with exchange := r }
  | Wallet.margin, r => { b with margin := r }
  | Wallet.lending, r => { b with lending := r }

/-- Applies the same update to the record of every wallet type, as the loops over
`Object.keys (balances[symbol])` do. -/
def WBal.mapAll (f : WRec → WRec) (b : WBal) : WBal :=
  { exchange := f b.exchange, margin := f b.margin, lending := f b.lending }

/-- Function `initSymbol` (lines 307-314): a missing asset is appended with all-zero
records, an existing one is left alone. -/
def initSymbol (sym : String) (balances : List (String × WBal)) : List (String × WBal) :=
  match lookupKey balances sym with
  | some _ => balances
  | none => balances ++ [(sym, zeroWBal)]

/-- In-place update `balances[sym][w] = f (balances[sym][w])`. -/
def updateWRec (balances : List (String × WBal)) (sym : String) (w : Wallet)
    (f : WRec → WRec) : List (String × WBal) :=
  balances.map (fun e => if e.1 = sym then (e.1, e.2.set w (f (e.2.get w))) else e)

/-- The available-balances accumulation (lines 319-327): for every wallet type and
raw symbol of the `returnAvailableAccountBalances` response, remap the symbol and
add to `available`. -/
def accumAvailable (avail : List (Wallet × List (String × Rat)))
    (balances : List (String × WBal)) : List (String × WBal) :=
  avail.foldl
    (fun acc we =>
      we.2.foldl
        (fun acc2 sv =>
          let c := commonCurrencyCode sv.1
          updateWRec (initSymbol c acc2) c we.1
            (fun r => { r with available := r.available + sv.2 }))
        acc)
    balances

/-- The exchange-wallet on-orders accumulation (lines 329-337): zero amounts are
skipped, others are remapped and added to the exchange-wallet `on_orders`. -/
def accumOnOrders (complete : List (String × Rat))
    (balances : List (String × WBal)) : List (String × WBal) :=
  complete.foldl
    (fun acc sv =>
      if sv.2 = 0 then acc
      else
        let c := commonCurrencyCode sv.1
        updateWRec (initSymbol c acc) c Wallet.exchange
          (fun r => { r with on_orders := r.on_orders + sv.2 }))
    balances

/-- The lending on-orders accumulation (lines 339-346) over the concatenated open
and active loan offers; the offers were already parsed (symbol remapped, amount
numeric) by `fetchOpenLoans`/`fetchActiveLoans`. -/
def accumLoans (loans : List (String × Rat))
    (balances : List (String × WBal)) : List (String × WBal) :=
  loans.foldl
    (fun acc sv =>
      updateWRec (initSymbol sv.1 acc) sv.1 Wallet.lending
        (fun r => { r with on_orders := r.on_orders + sv.2 }))
    balances

/-- All accumulation phases of `fetchWalletBalance`, in source order, before the
total pass. -/
def accumulateWallet (avail : List (Wallet × List (String × Rat)))
    (complete : List (String × Rat)) (loans : List (String × Rat)) :
    List (String × WBal) :=
  accumLoans loans (accumOnOrders complete (accumAvailable avail []))

/-- The final derived pass (lines 348-353): `total = available + on_orders` for
every asset and wallet type. -/
def deriveTotals (balances : List (String × WBal)) : List (String × WBal) :=
  balances.map (fun e =>
    (e.1, WBal.mapAll (fun r => { r with total := r.available + r.on_orders }) e.2))

/-- Function `fetchWalletBalance` (src/js/poloniex.js lines 316-355). -/
def fetchWalletBalance (avail : List (Wallet × List (String × Rat)))
    (complete : List (String × Rat)) (loans : List (String × Rat)) :
    List (String × WBal) :=
  deriveTotals (accumulateWallet avail complete loans)

/-- The property that every total of the balance structure is still at its zero
initialization, i.e. no accumulation step has touched it. -/
def allTotalsZero (l : List (String × WBal)) : Prop :=
  ∀ e ∈ l, ∀ w, (WBal.get e.2 w).total = 0

/-! ## Concrete sample inputs for counterexamples and witnesses -/

/-- A cached order in terminal status `canceled`. -/
def sampleCanceled : Order :=
  { id := "1", timestamp := some 0, status := "canceled", symbol := some "ETH/BTC",
    type := some "limit", side := some "buy", price := some 2, amount := some 10,
    filled := none, remaining := some 10, cost := none, fee := some 0 }

/-- The cached order of the reconcile scenario of the spec: id 1, status `open`,
amount 10, price 2, cost not yet known. -/
def sampleOpen : Order :=
  { id := "1", timestamp := some 0, status := "open", symbol := some "ETH/BTC",
    type := some "limit", side := some "buy", price := some 2, amount := some 10,
    filled := none, remaining := some 10, cost := none, fee := some 0 }

/-- A raw open-orders record still listing order id 1. -/
def sampleRawOpen : RawOpenOrder :=
  { orderNumber := "1", date := some 5, otype := "buy", rate := some 2,
    startingAmount := some 10, amount := some 10 }

/-- A raw open-orders record for a fresh order id 2. -/
def sampleRawOpen2 : RawOpenOrder :=
  { orderNumber := "2", date := some 6, otype := "sell", rate := some 3,
    startingAmount := some 4, amount := some 4 }

/-- A raw trade carrying only the native pair id BTC_STR (STR is remapped to XLM by
the commonCurrencies table). -/
def sampleRawTrade : RawTrade :=
  { globalTradeID := some "g1", orderNumber := some "o1", date := some 3,
    currencyPair := some "BTC_STR", otype := some "buy", rate := some 2,
    total := some 20, amount := some 10, fee := some (1 / 100) }

/-- The sell-side variant of `sampleRawTrade`. -/
def sampleRawTradeSell : RawTrade :=
  { sampleRawTrade with otype := some "sell" }

/-- A loaded market for the fee-asymmetry witness. -/
def sampleMarket : Market :=
  { id := "BTC_ETH", symbol := "ETH/BTC", base := "ETH", quote := "BTC" }

def sampleAvail : List (Wallet × List (String × Rat)) := [(Wallet.exchange, [("BTC", 5)])]

def sampleComplete : List (String × Rat) := [("BTC", 7)]

def sampleLoans : List (String × Rat) := [("XLM", 2)]

/-- The BTC entry produced by `fetchWalletBalance` on the sample inputs. -/
def sampleWBBTC : WBal :=
  { exchange := { available := 5, on_orders := 7, total := 12 },
    margin := zeroWRec, lending := zeroWRec }

def sampleBalanceResponse : List (String × RawBalance) :=
  [("STR", { available := some 3, onOrders := some 4 })]

/-- The XLM entry produced by `fetchWalletBalance` on the sample inputs. -/
def sampleWBXLM : WBal :=
  { exchange := zeroWRec, margin := zeroWRec,
    lending := { available := 0, on_orders := 2, total := 2 } }

/-- The account produced by `fetchBalance` on the sample response. -/
def sampleAccount : Account := { free := some 3, used := some 4, total := some 7 }

/-! ## Association-list laws -/

theorem lookupKey_setKey {β : Type} (l : List (String × β)) (k : String) (v : β) (id : String) :
    lookupKey (setKey l k v) id = if k = id then some v else lookupKey l id := by
  induction l with
  | nil => by_cases h : k = id <;> simp [setKey, lookupKey, h]
  | cons e rest ih =>
    obtain ⟨k1, v1⟩ := e
    by_cases h1 : k1 = k
    · subst h1
      by_cases h2 : k1 = id <;> simp [setKey, lookupKey, h2]
    · by_cases h2 : k1 = id
      · subst h2
        have hk : ¬ k = k1 := fun h => h1 h.symm
        simp [setKey, lookupKey, h1, hk]
      · simp [setKey, lookupKey, h1, h2, ih]

theorem setKey_self {β : Type} (l : List (String × β)) (k : String) (v : β)
    (h : lookupKey l k = some v) : setKey l k v = l := by
  induction l with
  | nil => simp [lookupKey] at h
  | cons e rest ih =>
    obtain ⟨k1, v1⟩ := e
    by_cases h1 : k1 = k
    · subst h1
      simp [lookupKey] at h
      simp [setKey, h]
    · simp [lookupKey, h1] at h
      simp [setKey, h1, ih h]

theorem mem_setKey {β : Type} {l : List (String × β)} {k : String} {v : β} {x : String × β}
    (h : x ∈ setKey l k v) : x ∈ l ∨ x = (k, v) := by
  induction l with
  | nil => simp [setKey] at h; simp [h]
  | cons e rest ih =>
    obtain ⟨k1, v1⟩ := e
    by_cases h1 : k1 = k
    · subst h1
      simp [setKey] at h
      rcases h with h | h
      · right; exact h
      · left; simp [h]
    · simp [setKey, h1] at h
      rcases h with h | h
      · left; simp [h]
      · rcases ih h with h2 | h2
        · left; simp [h2]
        · right; exact h2

theorem mem_keysOf_setKey {β : Type} {l : List (String × β)} {k : String} {v : β} {a : String}
    (h : a ∈ keysOf (setKey l k v)) : a ∈ keysOf l ∨ a = k := by
  simp only [keysOf, List.mem_map] at h
  obtain ⟨x, hx, hxa⟩ := h
  rcases mem_setKey hx with h2 | h2
  · left; simp only [keysOf, List.mem_map]; exact ⟨x, h2, hxa⟩
  · right; rw [h2] at hxa; exact hxa.symm

theorem nodup_setKey {β : Type} (l : List (String × β)) (k : String) (v : β)
    (h : (keysOf l).Nodup) : (keysOf (setKey l k v)).Nodup := by
  induction l with
  | nil => simp [setKey, keysOf]
  | cons e rest ih =>
    obtain ⟨k1, v1⟩ := e
    simp only [keysOf, List.map_cons, List.nodup_cons] at h
    by_cases h1 : k1 = k
    · subst h1
      simpa [setKey, keysOf, List.nodup_cons] using h
    · have h2 := ih h.2
      simp only [setKey, h1, if_false, keysOf, List.map_cons, List.nodup_cons]
      refine ⟨fun hmem => ?_, h2⟩
      rcases mem_keysOf_setKey hmem with h3 | h3
      · exact h.1 h3
      · exact h1 h3

/-! ## Laws of the fetchOrders reconcile -/

theorem lookupKey_setAll_ne (l : List (String × Order)) (fresh : List Order) (id : String)
    (h : ∀ o ∈ fresh, o.id ≠ id) : lookupKey (setAll l fresh) id = lookupKey l id := by
  induction fresh generalizing l with
  | nil => simp [setAll]
  | cons f rest ih =>
    have hstep : setAll l (f :: rest) = setAll (setKey l f.id f) rest := rfl
    rw [hstep, ih (setKey l f.id f) (fun o ho => h o (List.mem_cons_of_mem f ho)),
      lookupKey_setKey]
    simp [h f (List.mem_cons_self f rest)]

theorem lookupKey_setAll_mem : ∀ (fresh : List Order) (o : Order),
    (fresh.map Order.id).Nodup → o ∈ fresh →
    ∀ l : List (String × Order), lookupKey (setAll l fresh) o.id = some o := by
  intro fresh
  induction fresh with
  | nil => intro o _ ho; cases ho
  | cons f rest ih =>
    intro o hnd ho l
    simp only [List.map_cons, List.nodup_cons] at hnd
    have hstep : setAll l (f :: rest) = setAll (setKey l f.id f) rest := rfl
    rcases List.mem_cons.mp ho with h | h
    · subst h
      rw [hstep, lookupKey_setAll_ne]
      · simp [lookupKey_setKey]
      · intro o2 ho2 heq
        exact hnd.1 (heq ▸ List.mem_map_of_mem Order.id ho2)
    · rw [hstep]
      exact ih o hnd.2 h (setKey l f.id f)

theorem setAll_id (l : List (String × Order)) (fresh : List Order)
    (h : ∀ o ∈ fresh, lookupKey l o.id = some o) : setAll l fresh = l := by
  induction fresh with
  | nil => rfl
  | cons f rest ih =>
    have hstep : setAll l (f :: rest) = setAll (setKey l f.id f) rest := rfl
    rw [hstep, setKey_self l f.id f (h f (List.mem_cons_self f rest))]
    exact ih (fun o ho => h o (List.mem_cons_of_mem f ho))

theorem nodup_setAll (l : List (String × Order)) (fresh : List Order)
    (h : (keysOf l).Nodup) : (keysOf (setAll l fresh)).Nodup := by
  induction fresh generalizing l with
  | nil => exact h
  | cons f rest ih =>
    have hstep : setAll l (f :: rest) = setAll (setKey l f.id f) rest := rfl
    rw [hstep]
    exact ih (setKey l f.id f) (nodup_setKey l f.id f h)

theorem reconcileEntry_fst (idx : List (String × Order)) (e : String × Order) :
    (reconcileEntry idx e).1 = e.1 := by
  unfold reconcileEntry
  cases lookupKey idx e.1 <;> simp
  split <;> rfl

theorem closeOrder_status (o : Order) : (closeOrder o).status = "closed" := by
  cases h : o.amount <;> simp [closeOrder, h]

theorem reconcileEntry_idem (idx : List (String × Order)) (e : String × Order) :
    reconcileEntry idx (reconcileEntry idx e) = reconcileEntry idx e := by
  obtain ⟨k, v⟩ := e
  unfold reconcileEntry
  cases h : lookupKey idx k with
  | some f => simp [h]
  | none =>
    simp only [h]
    by_cases hv : v.status = "open"
    · simp only [hv, if_true, h, closeOrder_status]
      rw [if_neg (by decide : ¬ ("closed" : String) = "open")]
    · simp [hv, h]

theorem lookupKey_map_reconcile (idx l : List (String × Order)) (id : String) :
    lookupKey (l.map (reconcileEntry idx)) id
      = (lookupKey l id).map (fun v => (reconcileEntry idx (id, v)).2) := by
  induction l with
  | nil => rfl
  | cons e rest ih =>
    obtain ⟨k, v⟩ := e
    rcases hre : reconcileEntry idx (k, v) with ⟨k2, v2⟩
    have hk2 : k2 = k := by
      have h1 := reconcileEntry_fst idx (k, v)
      rw [hre] at h1
      exact h1
    by_cases h : k = id
    · subst h
      rw [List.map_cons, hre]
      simp [lookupKey, hk2, hre]
    · rw [List.map_cons, hre]
      simp [lookupKey, hk2, h, ih]

theorem keysOf_map_reconcile (idx l : List (String × Order)) :
    keysOf (l.map (reconcileEntry idx)) = keysOf l := by
  unfold keysOf
  rw [List.map_map]
  exact List.map_congr_left (fun e _ => reconcileEntry_fst idx e)

theorem lookupKey_setStatus (l : List (String × Order)) (id st : String) :
    lookupKey (setStatus l id st) id
      = (lookupKey l id).map (fun v => { v with status := st }) := by
  induction l with
  | nil => rfl
  | cons e rest ih =>
    obtain ⟨k, v⟩ := e
    by_cases h : k = id
    · subst h
      simp [setStatus, lookupKey]
    · simp [setStatus, lookupKey, h, ih]

theorem foldl_preserve_mem {α β : Type} (P : α → Prop) (f : α → β → α) :
    ∀ (l : List β), (∀ a b, b ∈ l → P a → P (f a b)) → ∀ a, P a → P (l.foldl f a) := by
  intro l
  induction l with
  | nil => intro _ a ha; exact ha
  | cons x xs ih =>
    intro h a ha
    exact ih (fun a2 b hb => h a2 b (List.mem_cons_of_mem x hb)) (f a x)
      (h a x (List.mem_cons_self x xs) ha)

theorem toPrecision8_nonneg (x : Rat) (hx : 0 ≤ x) : 0 ≤ toPrecision8 x := by
  unfold toPrecision8
  have h1 : (0 : Int) ≤ round (x * 100000000) := by
    rw [round_eq]
    refine Int.le_floor.mpr ?_
    push_cast
    nlinarith
  have h2 : (0 : Rat) ≤ (round (x * 100000000) : Int) := by exact_mod_cast h1
  have h3 : (0 : Rat) < 100000000 := by norm_num
  exact div_nonneg h2 (le_of_lt h3)

theorem WBal.get_set (b : WBal) (w w2 : Wallet) (r : WRec) :
    (b.set w r).get w2 = if w = w2 then r else b.get w2 := by
  cases w <;> cases w2 <;> simp [WBal.set, WBal.get]

theorem WBal.get_mapAll (f : WRec → WRec) (b : WBal) (w : Wallet) :
    (WBal.mapAll f b).get w = f (b.get w) := by
  cases w <;> rfl

theorem WBal.get_zero (w : Wallet) : WBal.get zeroWBal w = zeroWRec := by
  cases w <;> rfl

theorem allTotalsZero_initSymbol (sym : String) (l : List (String × WBal))
    (h : allTotalsZero l) : allTotalsZero (initSymbol sym l) := by
  unfold initSymbol
  cases hh : lookupKey l sym with
  | some b => exact h
  | none =>
    intro e he w
    rcases List.mem_append.mp he with h2 | h2
    · exact h e h2 w
    · simp only [List.mem_singleton] at h2
      rw [h2]
      rw [WBal.get_zero]
      rfl

theorem allTotalsZero_updateWRec (l : List (String × WBal)) (sym : String) (w : Wallet)
    (f : WRec → WRec) (hf : ∀ r : WRec, (f r).total = r.total)
    (h : allTotalsZero l) : allTotalsZero (updateWRec l sym w f) := by
  intro e he w2
  unfold updateWRec at he
  rcases List.mem_map.mp he with ⟨e0, he0, heq⟩
  by_cases hk : e0.1 = sym
  · rw [← heq]
    simp only [hk, if_true]
    rw [WBal.get_set]
    by_cases hw : w = w2
    · simp only [hw, if_true]
      rw [hf]
      exact (hw ▸ h e0 he0 w)
    · simp only [hw, if_false]
      exact h e0 he0 w2
  · rw [← heq]
    simp only [hk, if_false]
    exact h e0 he0 w2

/-! ## Claim theorems -/

/-- Claim C1, counterexample: the cache holds order 1 with terminal status
`canceled`; a `fetchOrders` pass whose open-orders response still lists id 1
rewrites the cached status back to `open` (lines 902-904 and 911 of
src/js/poloniex.js overwrite the cached entry with the freshly parsed open order),
so a terminal status is not left unchanged for every possible response. -/
theorem terminalStatusCounterexample :
    (lookupKey (fetchOrdersCacheRaw [("1", sampleCanceled)] (some "ETH/BTC") [sampleRawOpen]) "1").map
        Order.status
      ≠ (lookupKey [("1", sampleCanceled)] "1").map Order.status := by
  decide

/-- Claim C1, amended: a cached order whose status is `closed` or `canceled` is
left entirely unchanged by a `fetchOrders` pass provided its id is absent from the
open-orders response; when the response still lists the id, the entry is
overwritten with the fresh `open` order. -/
theorem terminalStatusPreservedWhenAbsent (cache : List (String × Order))
    (symbol : Option String) (resp : List RawOpenOrder) (id : String) (o : Order)
    (hmem : lookupKey cache id = some o)
    (hterm : o.status = "closed" ∨ o.status = "canceled")
    (habs : ∀ r ∈ resp, r.orderNumber ≠ id) :
    lookupKey (fetchOrdersCacheRaw cache symbol resp) id = some o := by
  have hfresh : ∀ f ∈ resp.map (parseOpenOrder symbol), Order.id f ≠ id := by
    intro f hf
    rcases List.mem_map.mp hf with ⟨r, hr, hfr⟩
    rw [← hfr]
    exact habs r hr
  show lookupKey ((setAll cache (resp.map (parseOpenOrder symbol))).map
    (reconcileEntry (setAll [] (resp.map (parseOpenOrder symbol))))) id = some o
  rw [lookupKey_map_reconcile, lookupKey_setAll_ne _ _ _ hfresh, hmem]
  have hidx : lookupKey (setAll [] (resp.map (parseOpenOrder symbol))) id = none := by
    rw [lookupKey_setAll_ne _ _ _ hfresh]
    rfl
  have hno : ¬ o.status = "open" := by
    rcases hterm with h | h <;> rw [h] <;> decide
  simp [reconcileEntry, hidx, hno]

/-- Claim C1, witness for the amended theorem at a concrete input: the canceled
sample order survives a reconcile pass with an empty open-orders response. -/
theorem terminalStatusPreservedWhenAbsentWitness :
    lookupKey (fetchOrdersCacheRaw [("1", sampleCanceled)] (some "ETH/BTC") []) "1"
      = some sampleCanceled :=
  terminalStatusPreservedWhenAbsent [("1", sampleCanceled)] (some "ETH/BTC") [] "1"
    sampleCanceled (by decide) (Or.inr rfl) (by intro r hr; cases hr)

/-- Claim C3: a cached order with status `open`, defined amount and price and no
known cost, whose id is absent from the open-orders response, is transitioned by
the reconciler to `closed` with `filled = amount`, `remaining = 0` and
`cost = filled * price`. -/
theorem absentOpenOrderClosed (cache : List (String × Order)) (symbol : Option String)
    (resp : List RawOpenOrder) (id : String) (o : Order) (a p : Rat)
    (hmem : lookupKey cache id = some o)
    (hopen : o.status = "open")
    (habs : ∀ r ∈ resp, r.orderNumber ≠ id)
    (_hcost : o.cost = none)
    (ha : o.amount = some a)
    (hp : o.price = some p) :
    lookupKey (fetchOrdersCacheRaw cache symbol resp) id
      = some { o with
                status := "closed"
                filled := some a
                remaining := some 0
                cost := some (a * p) } := by
  have hfresh : ∀ f ∈ resp.map (parseOpenOrder symbol), Order.id f ≠ id := by
    intro f hf
    rcases List.mem_map.mp hf with ⟨r, hr, hfr⟩
    rw [← hfr]
    exact habs r hr
  show lookupKey ((setAll cache (resp.map (parseOpenOrder symbol))).map
    (reconcileEntry (setAll [] (resp.map (parseOpenOrder symbol))))) id
    = some { o with
              status := "closed"
              filled := some a
              remaining := some 0
              cost := some (a * p) }
  rw [lookupKey_map_reconcile, lookupKey_setAll_ne _ _ _ hfresh, hmem]
  have hidx : lookupKey (setAll [] (resp.map (parseOpenOrder symbol))) id = none := by
    rw [lookupKey_setAll_ne _ _ _ hfresh]
    rfl
  have hrec : reconcileEntry (setAll [] (resp.map (parseOpenOrder symbol))) (id, o)
      = (id, closeOrder o) := by
    simp [reconcileEntry, hidx, hopen]
  simp only [Option.map_some', hrec]
  simp [closeOrder, ha, hp, jsMul]

/-- Claim C3, witness: the scenario from the spec. The cache holds
{id 1, open, amount 10, price 2}; the response omits id 1; reconciliation yields
{id 1, closed, filled 10, remaining 0, cost 20}. -/
theorem absentOpenOrderClosedWitness :
    lookupKey (fetchOrdersCacheRaw [("1", sampleOpen)] (some "ETH/BTC") []) "1"
      = some { sampleOpen with
                status := "closed"
                filled := some 10
                remaining := some 0
                cost := some 20 } := by
  have h := absentOpenOrderClosed [("1", sampleOpen)] (some "ETH/BTC") [] "1" sampleOpen
    10 2 (by decide) rfl (by intro r hr; cases hr) rfl rfl rfl
  norm_num at h
  exact h

theorem findBroad_first (msg key : String) (kind : ErrKind) :
    ∀ b1 b2 : List (String × ErrKind), (∀ q ∈ b1, strOccurs q.1 msg = false) →
    strOccurs key msg = true →
    findBroadlyMatchedKey (b1 ++ (key, kind) :: b2) msg = some key := by
  intro b1
  induction b1 with
  | nil =>
    intro b2 _ hk
    simp [findBroadlyMatchedKey, hk]
  | cons q rest ih =>
    intro b2 hmiss hk
    obtain ⟨qk, qkd⟩ := q
    have hq : strOccurs qk msg = false := hmiss (qk, qkd) (List.mem_cons_self _ _)
    rw [List.cons_append]
    simp only [findBroadlyMatchedKey, hq]
    rw [if_neg (by simp [hq])]
    exact ih b2 (fun q2 hq2 => hmiss q2 (List.mem_cons_of_mem _ hq2)) hk

/-- Claim C2: classification of an error-carrying body.  (i) A message that is a
key of the exact table raises exactly the mapped kind.  (ii) A message that is not
an exact key and contains a broad-table substring raises the kind mapped to the
first such substring in table order, carrying the raw message.  (iii) A message
matching neither raises the generic ExchangeError carrying the raw message. -/
theorem errorClassification :
    (∀ p ∈ exceptionsExact, handleErrors (some (some p.1)) = some { kind := p.2, message := p.1 })
    ∧ (∀ (msg key : String) (kind : ErrKind) (b1 b2 : List (String × ErrKind)),
        lookupKey exceptionsExact msg = none →
        exceptionsBroad = b1 ++ (key, kind) :: b2 →
        (∀ q ∈ b1, strOccurs q.1 msg = false) →
        strOccurs key msg = true →
        lookupKey exceptionsBroad key = some kind →
        handleErrors (some (some msg)) = some { kind := kind, message := msg })
    ∧ (∀ msg : String, lookupKey exceptionsExact msg = none →
        findBroadlyMatchedKey exceptionsBroad msg = none →
        handleErrors (some (some msg)) = some { kind := ErrKind.ExchangeError, message := msg }) := by
  refine ⟨by decide, ?_, ?_⟩
  · intro msg key kind b1 b2 hex htab hmiss hk hlk
    have hfind : findBroadlyMatchedKey exceptionsBroad msg = some key := by
      rw [htab]
      exact findBroad_first msg key kind b1 b2 hmiss hk
    simp [handleErrors, hex, hfind, hlk]
  · intro msg hex hfind
    simp [handleErrors, hex, hfind]

/-- Claim C2, witness: one concrete message per tier — an exact-table key, a
message strictly containing the first broad substring, and an unmapped message. -/
theorem errorClassificationWitness :
    handleErrors (some (some "Permission denied"))
      = some { kind := ErrKind.PermissionDenied, message := "Permission denied" }
    ∧ handleErrors (some (some "Total must be at least 0.0001."))
      = some { kind := ErrKind.InvalidOrder, message := "Total must be at least 0.0001." }
    ∧ handleErrors (some (some "some entirely unrecognized failure"))
      = some { kind := ErrKind.ExchangeError, message := "some entirely unrecognized failure" } :=
  ⟨errorClassification.1 ("Permission denied", ErrKind.PermissionDenied) (by decide),
   errorClassification.2.1 "Total must be at least 0.0001." "Total must be at least"
     ErrKind.InvalidOrder [] (List.tail exceptionsBroad) (by decide) rfl
     (by intro q hq; cases hq) (by decide) (by decide),
   errorClassification.2.2 "some entirely unrecognized failure" (by decide) (by decide)⟩

/-- Claim C4: when the exchange call inside `cancelOrder` raises CancelPending,
the cached order (when present) is marked `canceled` before the error is re-raised;
consequently two rapid cancels of order id — the first succeeding, the second
raising CancelPending — leave the cached order `canceled`. -/
theorem cancelPendingMarksCanceled (orders : List (String × Order)) (id : String) (o : Order)
    (hmem : lookupKey orders id = some o) :
    (cancelOrder orders id (some ErrKind.CancelPending)).2 = some ErrKind.CancelPending
    ∧ lookupKey (cancelOrder orders id (some ErrKind.CancelPending)).1 id
        = some { o with status := "canceled" }
    ∧ lookupKey (cancelOrder (cancelOrder orders id none).1 id (some ErrKind.CancelPending)).1 id
        = some { o with status := "canceled" } := by
  refine ⟨rfl, ?_, ?_⟩
  · show lookupKey (setStatus orders id "canceled") id = _
    rw [lookupKey_setStatus, hmem]
    rfl
  · show lookupKey (setStatus (setStatus orders id "canceled") id "canceled") id = _
    rw [lookupKey_setStatus, lookupKey_setStatus, hmem]
    rfl

/-- Claim C4, witness: the scenario at a concrete cache — after a successful cancel
followed by one raising CancelPending, order 1 is cached as `canceled`, and the
error is still propagated. -/
theorem cancelPendingMarksCanceledWitness :
    (cancelOrder [("1", sampleOpen)] "1" (some ErrKind.CancelPending)).2
        = some ErrKind.CancelPending
    ∧ lookupKey (cancelOrder [("1", sampleOpen)] "1" (some ErrKind.CancelPending)).1 "1"
        = some { sampleOpen with status := "canceled" }
    ∧ lookupKey
        (cancelOrder (cancelOrder [("1", sampleOpen)] "1" none).1 "1"
          (some ErrKind.CancelPending)).1 "1"
        = some { sampleOpen with status := "canceled" } :=
  cancelPendingMarksCanceled [("1", sampleOpen)] "1" sampleOpen (by decide)

/-- Claim C5: with a fixed open-orders response (well-formed: pairwise-distinct
order numbers) and a starting cache without duplicate ids, a second `fetchOrders`
pass over the same response leaves the cache snapshot of the first pass unchanged,
and the snapshot has no duplicate entries. -/
theorem fetchOrdersIdempotent (cache : List (String × Order)) (symbol : Option String)
    (resp : List RawOpenOrder)
    (hcache : (keysOf cache).Nodup)
    (hresp : (resp.map RawOpenOrder.orderNumber).Nodup) :
    fetchOrdersCacheRaw (fetchOrdersCacheRaw cache symbol resp) symbol resp
        = fetchOrdersCacheRaw cache symbol resp
    ∧ (keysOf (fetchOrdersCacheRaw cache symbol resp)).Nodup := by
  have hids : (resp.map (parseOpenOrder symbol)).map Order.id
      = resp.map RawOpenOrder.orderNumber := by
    rw [List.map_map]
    rfl
  have hndf : ((resp.map (parseOpenOrder symbol)).map Order.id).Nodup := by
    rw [hids]
    exact hresp
  have hdef : ∀ l : List (String × Order), fetchOrdersCacheRaw l symbol resp
      = (setAll l (resp.map (parseOpenOrder symbol))).map
          (reconcileEntry (setAll [] (resp.map (parseOpenOrder symbol)))) :=
    fun l => rfl
  have hmem1 : ∀ o ∈ resp.map (parseOpenOrder symbol),
      lookupKey (fetchOrdersCacheRaw cache symbol resp) o.id = some o := by
    intro o ho
    rw [hdef cache, lookupKey_map_reconcile,
      lookupKey_setAll_mem (resp.map (parseOpenOrder symbol)) o hndf ho cache]
    have hio : lookupKey (setAll [] (resp.map (parseOpenOrder symbol))) o.id = some o :=
      lookupKey_setAll_mem (resp.map (parseOpenOrder symbol)) o hndf ho []
    simp [reconcileEntry, hio]
  constructor
  · calc fetchOrdersCacheRaw (fetchOrdersCacheRaw cache symbol resp) symbol resp
        = (setAll (fetchOrdersCacheRaw cache symbol resp) (resp.map (parseOpenOrder symbol))).map
            (reconcileEntry (setAll [] (resp.map (parseOpenOrder symbol)))) := hdef _
      _ = (fetchOrdersCacheRaw cache symbol resp).map
            (reconcileEntry (setAll [] (resp.map (parseOpenOrder symbol)))) := by
          rw [setAll_id _ _ hmem1]
      _ = ((setAll cache (resp.map (parseOpenOrder symbol))).map
            (reconcileEntry (setAll [] (resp.map (parseOpenOrder symbol))))).map
            (reconcileEntry (setAll [] (resp.map (parseOpenOrder symbol)))) := by
          rw [hdef cache]
      _ = (setAll cache (resp.map (parseOpenOrder symbol))).map
            ((reconcileEntry (setAll [] (resp.map (parseOpenOrder symbol)))) ∘
              (reconcileEntry (setAll [] (resp.map (parseOpenOrder symbol))))) := by
          rw [List.map_map]
      _ = (setAll cache (resp.map (parseOpenOrder symbol))).map
            (reconcileEntry (setAll [] (resp.map (parseOpenOrder symbol)))) :=
          List.map_congr_left (fun e _ => reconcileEntry_idem _ e)
      _ = fetchOrdersCacheRaw cache symbol resp := (hdef cache).symm
  · rw [hdef cache, keysOf_map_reconcile]
    exact nodup_setAll cache _ hcache

/-- Claim C5, witness: a concrete cache holding the open order 1 and a response
listing only order 2 — the second pass reproduces the first snapshot exactly, and
its keys are duplicate-free. -/
theorem fetchOrdersIdempotentWitness :
    fetchOrdersCacheRaw
        (fetchOrdersCacheRaw [("1", sampleOpen)] (some "ETH/BTC") [sampleRawOpen2])
        (some "ETH/BTC") [sampleRawOpen2]
      = fetchOrdersCacheRaw [("1", sampleOpen)] (some "ETH/BTC") [sampleRawOpen2]
    ∧ (keysOf (fetchOrdersCacheRaw [("1", sampleOpen)] (some "ETH/BTC") [sampleRawOpen2])).Nodup :=
  fetchOrdersIdempotent [("1", sampleOpen)] (some "ETH/BTC") [sampleRawOpen2]
    (by decide) (by decide)

/-- Claim C6: in a trade parsed with a market context and a nonnegative fee rate,
a buy-side fee is charged in the base asset and leaves `filled ≤ amount`, while a
sell-side fee is charged in the quote asset and leaves `cost ≤ total`. -/
theorem tradeFeeAsymmetry (marketsById : List (String × Market)) (m : Market)
    (t : RawTrade) (r : Rat) (hfee : t.fee = some r) (hr : 0 ≤ r) :
    (∀ a : Rat, t.otype = some "buy" → t.amount = some a → 0 ≤ a →
      ∃ fr : TradeFee, (parseTrade marketsById (some m) t).fee = some fr
        ∧ fr.currency = some m.base
        ∧ ∃ f : Rat, (parseTrade marketsById (some m) t).filled = some f ∧ f ≤ a)
    ∧ (∀ tv : Rat, t.otype = some "sell" → t.total = some tv → 0 ≤ tv →
      ∃ fr : TradeFee, (parseTrade marketsById (some m) t).fee = some fr
        ∧ fr.currency = some m.quote
        ∧ ∃ c : Rat, (parseTrade marketsById (some m) t).cost = some c ∧ c ≤ tv) := by
  constructor
  · intro a hbuy ha ha0
    have hfa : 0 ≤ toPrecision8 (a * r) := toPrecision8_nonneg _ (mul_nonneg ha0 hr)
    refine ⟨{ rate := some r, cost := some 0, amount := some (toPrecision8 (a * r)), currency := some m.base }, ?_, rfl, a - toPrecision8 (a * r), ?_, by linarith⟩
    · simp [parseTrade, parseTradeSymbol, hfee, hbuy, ha, jsMul]
    · simp [parseTrade, hfee, hbuy, ha, jsMul, jsSub]
  · intro tv hsell htv htv0
    have hfc : 0 ≤ toPrecision8 (tv * r) := toPrecision8_nonneg _ (mul_nonneg htv0 hr)
    refine ⟨{ rate := some r, cost := some (toPrecision8 (tv * r)), amount := some 0, currency := some m.quote }, ?_, rfl, tv - toPrecision8 (tv * r), ?_, by linarith⟩
    · simp [parseTrade, parseTradeSymbol, hfee, hsell, htv]
    · simp [parseTrade, hfee, hsell, htv]

/-- Claim C6, witness: the sample buy and sell trades at rate 1% — the buy fee is
charged in ETH with filled 9.9 ≤ 10, the sell fee in BTC with cost 19.8 ≤ 20. -/
theorem tradeFeeAsymmetryWitness :
    (∃ fr : TradeFee, (parseTrade [] (some sampleMarket) sampleRawTrade).fee = some fr
      ∧ fr.currency = some sampleMarket.base
      ∧ ∃ f : Rat, (parseTrade [] (some sampleMarket) sampleRawTrade).filled = some f ∧ f ≤ 10)
    ∧ (∃ fr : TradeFee, (parseTrade [] (some sampleMarket) sampleRawTradeSell).fee = some fr
      ∧ fr.currency = some sampleMarket.quote
      ∧ ∃ c : Rat, (parseTrade [] (some sampleMarket) sampleRawTradeSell).cost = some c
        ∧ c ≤ 20) :=
  ⟨(tradeFeeAsymmetry [] sampleMarket sampleRawTrade (1 / 100) rfl (by norm_num)).1
      10 rfl rfl (by norm_num),
   (tradeFeeAsymmetry [] sampleMarket sampleRawTradeSell (1 / 100) rfl (by norm_num)).2
      20 rfl rfl (by norm_num)⟩

/-- Claim C7: the accumulation phases of `fetchWalletBalance` never touch a total
(every total is still 0 when accumulation is complete), and in the returned
structure the record of every asset for every wallet type satisfies
`total = available + on_orders`, established by the single derived pass. -/
theorem walletTotalsInvariant (avail : List (Wallet × List (String × Rat)))
    (complete : List (String × Rat)) (loans : List (String × Rat)) :
    allTotalsZero (accumulateWallet avail complete loans)
    ∧ ∀ e ∈ fetchWalletBalance avail complete loans, ∀ w : Wallet,
        (WBal.get e.2 w).total = (WBal.get e.2 w).available + (WBal.get e.2 w).on_orders := by
  constructor
  · have h0 : allTotalsZero ([] : List (String × WBal)) := by
      intro e he
      cases he
    have hA : allTotalsZero (accumAvailable avail []) := by
      unfold accumAvailable
      refine foldl_preserve_mem _ _ avail ?_ [] h0
      intro acc we _ hacc
      refine foldl_preserve_mem _ _ we.2 ?_ acc hacc
      intro acc2 sv _ h2
      exact allTotalsZero_updateWRec _ _ _ _ (fun r => rfl)
        (allTotalsZero_initSymbol _ _ h2)
    have hB : allTotalsZero (accumOnOrders complete (accumAvailable avail [])) := by
      unfold accumOnOrders
      refine foldl_preserve_mem _ _ complete ?_ _ hA
      intro acc sv _ h2
      by_cases hz : sv.2 = 0
      · simpa [hz] using h2
      · simp only [hz, if_false]
        exact allTotalsZero_updateWRec _ _ _ _ (fun r => rfl)
          (allTotalsZero_initSymbol _ _ h2)
    unfold accumulateWallet accumLoans
    refine foldl_preserve_mem _ _ loans ?_ _ hB
    intro acc sv _ h2
    exact allTotalsZero_updateWRec _ _ _ _ (fun r => rfl)
      (allTotalsZero_initSymbol _ _ h2)
  · intro e he w
    unfold fetchWalletBalance deriveTotals at he
    rcases List.mem_map.mp he with ⟨e0, _, heq⟩
    rw [← heq, WBal.get_mapAll]

/-- Evaluation of `fetchWalletBalance` on the sample sources. -/
theorem sampleWalletEval :
    fetchWalletBalance sampleAvail sampleComplete sampleLoans
      = [("BTC", sampleWBBTC), ("XLM", sampleWBXLM)] := by
  simp [fetchWalletBalance, accumulateWallet, accumLoans, accumOnOrders, accumAvailable,
    initSymbol, updateWRec, lookupKey, commonCurrencyCode, commonCurrencies, deriveTotals,
    WBal.mapAll, WBal.get, WBal.set, zeroWBal, zeroWRec, sampleAvail, sampleComplete,
    sampleLoans, sampleWBBTC, sampleWBXLM]
  norm_num

/-- Claim C7, witness: on the sample sources the BTC entry of the result satisfies
the invariant in the exchange wallet (total 12 = available 5 + on_orders 7). -/
theorem walletTotalsInvariantWitness :
    (("BTC", sampleWBBTC) ∈ fetchWalletBalance sampleAvail sampleComplete sampleLoans)
    ∧ (WBal.get sampleWBBTC Wallet.exchange).total
        = (WBal.get sampleWBBTC Wallet.exchange).available
          + (WBal.get sampleWBBTC Wallet.exchange).on_orders :=
  ⟨by rw [sampleWalletEval]; exact List.mem_cons_self _ _,
   (walletTotalsInvariant sampleAvail sampleComplete sampleLoans).2 ("BTC", sampleWBBTC)
     (by rw [sampleWalletEval]; exact List.mem_cons_self _ _) Wallet.exchange⟩

/-- Claim C8: every account constructed by the `fetchBalance` loop takes `free`
from the source `available` field and `used` from its `onOrders` field, and (for
entries whose source fields are present) satisfies `total = free + used` exactly,
established at construction of the account record. -/
theorem balanceTotalInvariant (response : List (String × RawBalance))
    (h : ∀ e ∈ response, e.2.available.isSome ∧ e.2.onOrders.isSome) :
    ∀ e ∈ fetchBalance response, ∃ src ∈ response,
      e.2.free = src.2.available ∧ e.2.used = src.2.onOrders
      ∧ ∃ f u : Rat, e.2.free = some f ∧ e.2.used = some u ∧ e.2.total = some (f + u) := by
  have hP : ∀ e ∈ fetchBalance response, ∃ src ∈ response, e.2 = mkAccount src.2 := by
    unfold fetchBalance
    refine foldl_preserve_mem
      (fun l : List (String × Account) => ∀ e ∈ l, ∃ src ∈ response, e.2 = mkAccount src.2)
      _ response ?_ [] ?_
    · intro acc b hb hacc e he
      rcases mem_setKey he with h2 | h2
      · exact hacc e h2
      · exact ⟨b, hb, by rw [h2]⟩
    · intro e he
      cases he
  intro e he
  rcases hP e he with ⟨src, hsrc, heq⟩
  rcases h src hsrc with ⟨hav, hon⟩
  rcases Option.isSome_iff_exists.mp hav with ⟨f, hf⟩
  rcases Option.isSome_iff_exists.mp hon with ⟨u, hu⟩
  refine ⟨src, hsrc, ?_, ?_, f, u, ?_, ?_, ?_⟩ <;>
    rw [heq] <;> simp [mkAccount, jsSum, hf, hu]

/-- Evaluation of `fetchBalance` on the sample response (the STR id is remapped to
the XLM code by the commonCurrencies table). -/
theorem sampleBalanceEval :
    fetchBalance sampleBalanceResponse = [("XLM", sampleAccount)] := by
  simp [fetchBalance, sampleBalanceResponse, setKey, mkAccount, jsSum,
    commonCurrencyCode, commonCurrencies, lookupKey, sampleAccount]
  norm_num

/-- Claim C8, witness: the sample response entry (available 3, onOrders 4) yields
an account with free 3, used 4, total 7 tied back to its source entry. -/
theorem balanceTotalInvariantWitness :
    ∃ src ∈ sampleBalanceResponse,
      sampleAccount.free = src.2.available
      ∧ sampleAccount.used = src.2.onOrders
      ∧ ∃ f u : Rat, sampleAccount.free = some f ∧ sampleAccount.used = some u
          ∧ sampleAccount.total = some (f + u) :=
  balanceTotalInvariant sampleBalanceResponse (by decide)
    ("XLM", sampleAccount) (by rw [sampleBalanceEval]; exact List.mem_cons_self _ _)

/-- Claim C9, counterexample: for the native id BTC_STR absent from the
market-by-id index, the fetchTickers fallback applies the commonCurrencies
remapping (STR becomes XLM) and yields XLM/BTC, while the parseTrade fallback
concatenates the raw split parts and yields STR/BTC — so the remapping is not
applied uniformly in all four normalizers. -/
theorem marketResolutionCounterexample :
    fetchTickersSymbol [] "BTC_STR" = some "XLM/BTC"
    ∧ (parseTrade [] none sampleRawTrade).symbol = some "STR/BTC"
    ∧ ("STR/BTC" : String) ≠ "XLM/BTC" := by
  refine ⟨by decide, ?_, by decide⟩
  simp [parseTrade, parseTradeSymbol, sampleRawTrade, lookupKey]
  decide

/-- Claim C9, amended: every one of the four normalizers tries the reverse lookup
in the market-by-id index first; on a miss, fetchTickers, fetchOrderBooks and
fetchMyTrades fall back to the delimiter split with the commonCurrencies remapping
applied to both currency ids, while parseTrade falls back to the raw split parts
without the remapping. -/
theorem marketResolutionAmended (marketsById : List (String × Market)) (id : String)
    (t : RawTrade) (ht : t.currencyPair = some id) :
    (∀ m : Market, lookupKey marketsById id = some m →
      fetchTickersSymbol marketsById id = some m.symbol
      ∧ fetchOrderBooksSymbol marketsById id = some m.symbol
      ∧ fetchMyTradesSymbol marketsById id = some m.symbol
      ∧ (parseTrade marketsById none t).symbol = some m.symbol)
    ∧ (lookupKey marketsById id = none →
      fetchTickersSymbol marketsById id = fallbackSymbolCcc id
      ∧ fetchOrderBooksSymbol marketsById id = fallbackSymbolCcc id
      ∧ fetchMyTradesSymbol marketsById id = fallbackSymbolCcc id
      ∧ (parseTrade marketsById none t).symbol = fallbackSymbolRaw id) := by
  constructor
  · intro m hm
    refine ⟨?_, ?_, ?_, ?_⟩ <;>
      simp [fetchTickersSymbol, fetchOrderBooksSymbol, fetchMyTradesSymbol,
        parseTrade, parseTradeSymbol, ht, hm]
  · intro hm
    refine ⟨?_, ?_, ?_, ?_⟩ <;>
      simp only [fetchTickersSymbol, fetchOrderBooksSymbol, fetchMyTradesSymbol,
        parseTrade, parseTradeSymbol, ht, hm]
    show (match (splitPair id).get? 0, (splitPair id).get? 1 with
      | some quote, some base => ((some (base ++ "/" ++ quote) : Option String),
          (some base : Option String), (some quote : Option String))
      | q, _ => (none, none, q)).1 = fallbackSymbolRaw id
    unfold fallbackSymbolRaw
    cases h0 : (splitPair id).get? 0 <;> cases h1 : (splitPair id).get? 1 <;>
      simp only [List.get?_eq_getElem?] at h0 h1 <;> simp [h0, h1]

/-- Claim C9, witness for the amended theorem: the listed id BTC_ETH resolves
through the index in all four normalizers, and the unlisted id BTC_STR goes to the
remapped fallback in three and the raw fallback in parseTrade. -/
theorem marketResolutionAmendedWitness :
    (fetchTickersSymbol [("BTC_ETH", sampleMarket)] "BTC_ETH" = some sampleMarket.symbol
      ∧ fetchOrderBooksSymbol [("BTC_ETH", sampleMarket)] "BTC_ETH" = some sampleMarket.symbol
      ∧ fetchMyTradesSymbol [("BTC_ETH", sampleMarket)] "BTC_ETH" = some sampleMarket.symbol
      ∧ (parseTrade [("BTC_ETH", sampleMarket)] none
          { sampleRawTrade with currencyPair := some "BTC_ETH" }).symbol
        = some sampleMarket.symbol)
    ∧ (fetchTickersSymbol [] "BTC_STR" = fallbackSymbolCcc "BTC_STR"
      ∧ fetchOrderBooksSymbol [] "BTC_STR" = fallbackSymbolCcc "BTC_STR"
      ∧ fetchMyTradesSymbol [] "BTC_STR" = fallbackSymbolCcc "BTC_STR"
      ∧ (parseTrade [] none sampleRawTrade).symbol = fallbackSymbolRaw "BTC_STR") :=
  ⟨(marketResolutionAmended [("BTC_ETH", sampleMarket)] "BTC_ETH"
      { sampleRawTrade with currencyPair := some "BTC_ETH" } rfl).1 sampleMarket (by decide),
   (marketResolutionAmended [] "BTC_STR" sampleRawTrade rfl).2 rfl⟩

/-- Claim C10: `createOrder` with type market raises no error on account of the
order type — the type is rewritten to limit before the request is built, and the
order is cached and returned as an open limit order, keyed by the order number
from the exchange. -/
theorem marketOrderSilentlyLimit (orders : List (String × Order)) (msymbol side : String)
    (amount : Rat) (price : Option Rat) (now : Int) (resp : CreateResponse)
    (hside : side = "buy" ∨ side = "sell") :
    ∃ (cache2 : List (String × Order)) (o : Order),
      createOrder orders msymbol "market" side amount price now resp
          = Except.ok (cache2, o)
      ∧ o.type = some "limit"
      ∧ o.status = "open"
      ∧ o.side = some side
      ∧ o.id = resp.orderNumber
      ∧ lookupKey cache2 o.id = some o := by
  rcases hside with h | h <;> subst h <;>
    refine ⟨_, _, rfl, rfl, rfl, rfl, rfl, ?_⟩ <;>
    simp [lookupKey_setKey]

/-- Claim C10, witness: a concrete market-type buy order is accepted, cached and
returned as an open limit order. -/
theorem marketOrderSilentlyLimitWitness :
    ∃ (cache2 : List (String × Order)) (o : Order),
      createOrder [] "ETH/BTC" "market" "buy" 10 (some 2) 0 { orderNumber := "7" }
          = Except.ok (cache2, o)
      ∧ o.type = some "limit"
      ∧ o.status = "open"
      ∧ o.side = some "buy"
      ∧ o.id = ("7" : String)
      ∧ lookupKey cache2 o.id = some o :=
  marketOrderSilentlyLimit [] "ETH/BTC" "buy" 10 (some 2) 0 { orderNumber := "7" }
    (Or.inl rfl)

end Polo
